import Mathlib

/-!
# Karabiner-Elements observer: `grabber_client` and `components_manager`

A shallow embedding of

* `src/share/grabber_client.hpp` (the reconnecting datagram client), and
* `src/core/observer/include/components_manager.hpp` (the supervisor that owns the
  client, the version monitor and the device observer),

followed by theorems about the embedded code.

Every C++ lambda handed to a dispatcher becomes a constructor of a `task` type and
`run_task` gives its body.  Dispatcher queues are explicit lists, shared pointers are
`Option` handles, and the calls a task makes on collaborators that live outside these
two files are appended to a `trace`.
-/

namespace krbn

/-! ## Collaborators of `grabber_client` -/

/-- Modelled from the spec: `local_datagram::client_manager` (its header is not part of the
two embedded files).  Only what `grabber_client` touches is kept: an identity, whether
`async_start` was invoked on it, and the result of `get_client()`, which is a live client
exactly while the manager is connected. -/
structure client_manager where
  id : Nat
  started : Bool
  client : Option Nat
deriving DecidableEq, Repr

/-- Modelled from the spec: what `types.hpp` declares for the two string-carrying messages.
`sizeof_*` are the capacities of the `char` arrays, and `*_struct` is the memory of a
default-constructed `operation_type_*_struct` (tag byte first, then the arrays in
declaration order, spec section 6). -/
structure types where
  sizeof_bundle_identifier : Nat
  sizeof_file_path : Nat
  sizeof_language : Nat
  sizeof_input_source_id : Nat
  sizeof_input_mode_id : Nat
  frontmost_application_changed_struct : List Nat
  input_source_changed_struct : List Nat
deriving DecidableEq, Repr

/-- A small layout (every array four bytes wide, struct memory filled with 7) on which the
definitions can be evaluated. -/
def types.small : types :=
  { sizeof_bundle_identifier := 4, sizeof_file_path := 4, sizeof_language := 4,
    sizeof_input_source_id := 4, sizeof_input_mode_id := 4,
    frontmost_application_changed_struct := [1, 7, 7, 7, 7, 7, 7, 7, 7],
    input_source_changed_struct := [2, 7, 7, 7, 7, 7, 7, 7, 7, 7, 7, 7, 7] }

/-- The record handed to `client->async_send(p, length)`.  The three fixed-struct messages
are kept as values, the two string-carrying ones as the raw bytes of the struct. -/
inductive datagram where
  | grabbable_state_changed (grabbable_state : List Nat)
  | connect_console_user_server (pid : Nat)
  | system_preferences_updated (system_preferences : List Nat)
  | frontmost_application_changed (memory : List Nat)
  | input_source_changed (memory : List Nat)
deriving DecidableEq, Repr

/-- Lines written through `logger::get_logger()` by `grabber_client`. -/
inductive log_line where
  | warn_already_started
  | info_started
  | info_stopped
deriving DecidableEq, Repr

/-- Calls `grabber_client` makes on the transport layer. -/
inductive transport_call where
  | client_manager_new (id : Nat)
  | client_manager_async_start (id : Nat)
  | client_async_send (client : Nat) (d : datagram)
deriving DecidableEq, Repr

/-! ## `strlcpy` over a flat memory -/

/-- The copy loop of `strlcpy`: `nleft` counts the bytes that may still be stored before
the terminator, `src` is the unread part of the C string (reading past its end yields the
terminating NUL). -/
def strlcpy_loop : List Nat → Nat → List Nat → Nat → List Nat
  | mem, dst, _, 0 => mem.set dst 0
  | mem, dst, [], _ + 1 => mem.set dst 0
  | mem, dst, c :: cs, k + 1 =>
    if c = 0 then mem.set dst 0 else strlcpy_loop (mem.set dst c) (dst + 1) cs k

/-- Modelled from the spec: `strlcpy(dst, src, size)` of libc, the "bounded, truncating,
always-NUL-terminated copy" of spec section 4.2, as the usual byte loop over a flat
memory: `dst` is an offset into `mem`, `src` is the content of the `std::string`
(`c_str()` appends the NUL).  With `size = 0` nothing is written. -/
def strlcpy (mem : List Nat) (dst : Nat) (src : List Nat) (size : Nat) : List Nat :=
  if size = 0 then mem else strlcpy_loop mem dst src (size - 1)

/-- The `n` bytes of the `char[n]` field at offset `off`. -/
def field (mem : List Nat) (off n : Nat) : List Nat := (mem.drop off).take n

/-- Reading a `char[n]` field at offset `off` as a C string: the bytes before the first NUL
inside the field. -/
def c_string (mem : List Nat) (off n : Nat) : List Nat :=
  (field mem off n).takeWhile (fun c => c ≠ 0)

/-- The spec's "bounded, truncating, always-NUL-terminated copy", read off a memory: the
`char[n]` field at `off` starts with the first `min |s| (n-1)` bytes of `s` followed by a
NUL, and reads back as `s` when `|s| < n` and as the `(n-1)`-byte start of `s` otherwise. -/
def bounded_copy_of (mem : List Nat) (off n : Nat) (s : List Nat) : Prop :=
  (field mem off n).take (min s.length (n - 1) + 1) = s.take (min s.length (n - 1)) ++ [0] ∧
    c_string mem off n = if s.length < n then s else s.take (n - 1)

/-- The layout assumption on `types`: every array has room for at least the terminator, and
each struct is one tag byte followed by its arrays. -/
def types.well_formed (T : types) : Prop :=
  0 < T.sizeof_bundle_identifier ∧ 0 < T.sizeof_file_path ∧ 0 < T.sizeof_language ∧
    0 < T.sizeof_input_source_id ∧ 0 < T.sizeof_input_mode_id ∧
    T.frontmost_application_changed_struct.length =
      1 + T.sizeof_bundle_identifier + T.sizeof_file_path ∧
    T.input_source_changed_struct.length =
      1 + T.sizeof_language + T.sizeof_input_source_id + T.sizeof_input_mode_id

/-! ## `grabber_client` -/

/-- The lambdas `grabber_client` enqueues on its own `thread_utility::dispatcher`. -/
inductive grabber_client.task where
  | async_start
  | async_stop
  | async_grabbable_state_changed (grabbable_state : List Nat)
  | async_connect_console_user_server (pid : Nat)
  | async_system_preferences_updated (system_preferences : List Nat)
  | async_frontmost_application_changed (bundle_identifier file_path : List Nat)
  | async_input_source_changed (language input_source_id input_mode_id : Option (List Nat))
deriving DecidableEq, Repr

/-- State of a `grabber_client`: the `client_manager_` member, the FIFO queue of its
private dispatcher, a counter for fresh collaborator identities, and the calls and log
lines produced so far. -/
structure grabber_client where
  client_manager_ : Option client_manager
  queue : List grabber_client.task
  next_id : Nat
  trace : List transport_call
  log : List log_line
deriving DecidableEq, Repr

namespace grabber_client

/-- The constructor: no client manager, empty dispatcher. -/
def new : grabber_client :=
  { client_manager_ := none, queue := [], next_id := 0, trace := [], log := [] }

/-- `call_async_send`: forwards to the live client, if there is a manager and it has one. -/
def call_async_send (d : datagram) (s : grabber_client) : grabber_client :=
  match s.client_manager_ with
  | none => s
  | some m =>
    match m.client with
    | none => s
    | some c => { s with trace := s.trace ++ [transport_call.client_async_send c d] }

/-- The struct built by `async_frontmost_application_changed` before it is sent. -/
def frontmost_application_changed_memory (T : types)
    (bundle_identifier file_path : List Nat) : List Nat :=
  let s := T.frontmost_application_changed_struct
  let s := strlcpy s 1 bundle_identifier T.sizeof_bundle_identifier
  strlcpy s (1 + T.sizeof_bundle_identifier) file_path T.sizeof_file_path

/-- One optional field of `async_input_source_changed`: copied only when present. -/
def strlcpy_optional (mem : List Nat) (dst : Nat) (v : Option (List Nat)) (size : Nat) :
    List Nat :=
  match v with
  | none => mem
  | some src => strlcpy mem dst src size

/-- The struct built by `async_input_source_changed` before it is sent. -/
def input_source_changed_memory (T : types)
    (language input_source_id input_mode_id : Option (List Nat)) : List Nat :=
  let s := T.input_source_changed_struct
  let s := strlcpy_optional s 1 language T.sizeof_language
  let s := strlcpy_optional s (1 + T.sizeof_language) input_source_id T.sizeof_input_source_id
  strlcpy_optional s (1 + T.sizeof_language + T.sizeof_input_source_id) input_mode_id
    T.sizeof_input_mode_id

/-- Bodies of the enqueued lambdas. -/
def run_task (T : types) : task → grabber_client → grabber_client
  | .async_start, s =>
    match s.client_manager_ with
    | some _ => { s with log := s.log ++ [log_line.warn_already_started] }
    | none =>
      { s with
        client_manager_ := some { id := s.next_id, started := true, client := none }
        next_id := s.next_id + 1
        trace := s.trace ++ [transport_call.client_manager_new s.next_id,
                             transport_call.client_manager_async_start s.next_id]
        log := s.log ++ [log_line.info_started] }
  | .async_stop, s =>
    match s.client_manager_ with
    | none => s
    | some _ => { s with client_manager_ := none, log := s.log ++ [log_line.info_stopped] }
  | .async_grabbable_state_changed g, s =>
    call_async_send (datagram.grabbable_state_changed g) s
  | .async_connect_console_user_server pid, s =>
    call_async_send (datagram.connect_console_user_server pid) s
  | .async_system_preferences_updated p, s =>
    call_async_send (datagram.system_preferences_updated p) s
  | .async_frontmost_application_changed b f, s =>
    call_async_send
      (datagram.frontmost_application_changed (frontmost_application_changed_memory T b f)) s
  | .async_input_source_changed l i m, s =>
    call_async_send (datagram.input_source_changed (input_source_changed_memory T l i m)) s

/-- Modelled from the spec: `thread_utility::dispatcher::enqueue`, FIFO. -/
def enqueue (t : task) (s : grabber_client) : grabber_client :=
  { s with queue := s.queue ++ [t] }

/-- The public `async_start`. -/
def async_start (s : grabber_client) : grabber_client := enqueue task.async_start s

/-- The public `async_stop`. -/
def async_stop (s : grabber_client) : grabber_client := enqueue task.async_stop s

/-- Modelled from the spec: the dispatcher thread takes the oldest task and runs it. -/
def step (T : types) (s : grabber_client) : grabber_client :=
  match s.queue with
  | [] => s
  | t :: q => run_task T t { s with queue := q }

/-- Modelled from the spec: the dispatcher runs until its queue is empty (what
`terminate` waits for).  No task of `grabber_client` enqueues on its own dispatcher, so
one step per queued task is enough. -/
def run_all (T : types) (s : grabber_client) : grabber_client :=
  (step T)^[s.queue.length] s

/-- Whether a task is one of the five message-sending operations. -/
def task.is_send : task → Bool
  | .async_start => false
  | .async_stop => false
  | _ => true

end grabber_client

/-! ## `components_manager` -/

/-- Modelled from the spec: a `device_observer` (its header is not part of the two embedded
files): an identity and the `grabber_client` pointer its constructor was handed. -/
structure device_observer where
  id : Nat
  grabber_client : Option Nat
deriving DecidableEq, Repr

/-- The lambdas `components_manager` hands to `dispatcher_->enqueue` / `detach`. -/
inductive components_manager.task where
  | start_grabber_client
  | stop_grabber_client
  | connected
  | connect_failed
  | closed
  | start_device_observer
  | stop_device_observer
  | cleanup
deriving DecidableEq, Repr

/-- What a `components_manager` does to its collaborators, in program order. -/
inductive components_manager.effect where
  | version_monitor_new (id : Nat)
  | async_manual_check (version_monitor : Nat)
  | enqueued (t : components_manager.task)
  | grabber_client_new (id : Nat)
  | grabber_client_async_start (id : Nat)
  | grabber_client_reset (id : Nat)
  | device_observer_new (d : device_observer)
  | device_observer_reset (d : device_observer)
  | version_monitor_reset
  | dispatcher_terminate
deriving DecidableEq, Repr

/-- State of a `components_manager`: its three subsystem pointers, plus the part of the
dispatcher that concerns `object_id_` (whether it is attached, its FIFO queue, whether the
dispatcher was terminated), a counter for fresh identities and the effect trace. -/
structure components_manager where
  attached : Bool
  terminated : Bool
  queue : List components_manager.task
  version_monitor_ : Option Nat
  grabber_client_ : Option Nat
  device_observer_ : Option device_observer
  next_id : Nat
  trace : List components_manager.effect
deriving DecidableEq, Repr

/-- The three signals of `grabber_client`. -/
inductive signal where
  | connected
  | connect_failed
  | closed
deriving DecidableEq, Repr

namespace components_manager

/-- Modelled from the spec: `dispatcher::enqueue(object_id_, task)`: appended to the
FIFO queue of the object id; rejected once the id is detached. -/
def enqueue (t : task) (s : components_manager) : components_manager :=
  if s.attached then
    { s with queue := s.queue ++ [t], trace := s.trace ++ [effect.enqueued t] }
  else s

/-- `async_start_grabber_client`. -/
def async_start_grabber_client (s : components_manager) : components_manager :=
  enqueue task.start_grabber_client s

/-- `async_stop_grabber_client`. -/
def async_stop_grabber_client (s : components_manager) : components_manager :=
  enqueue task.stop_grabber_client s

/-- `stop_grabber_client`. -/
def stop_grabber_client (s : components_manager) : components_manager :=
  match s.grabber_client_ with
  | none => s
  | some g =>
    { s with grabber_client_ := none, trace := s.trace ++ [effect.grabber_client_reset g] }

/-- `async_start_device_observer`. -/
def async_start_device_observer (s : components_manager) : components_manager :=
  enqueue task.start_device_observer s

/-- `async_stop_device_observer`. -/
def async_stop_device_observer (s : components_manager) : components_manager :=
  enqueue task.stop_device_observer s

/-- `stop_device_observer`. -/
def stop_device_observer (s : components_manager) : components_manager :=
  match s.device_observer_ with
  | none => s
  | some d =>
    { s with device_observer_ := none, trace := s.trace ++ [effect.device_observer_reset d] }

/-- The guarded `version_monitor_->async_manual_check()` that opens every signal handler. -/
def manual_check (s : components_manager) : components_manager :=
  match s.version_monitor_ with
  | none => s
  | some v => { s with trace := s.trace ++ [effect.async_manual_check v] }

/-- Bodies of the enqueued lambdas. -/
def run_task : task → components_manager → components_manager
  | .start_grabber_client, s =>
    match s.grabber_client_ with
    | some _ => s
    | none =>
      { s with
        grabber_client_ := some s.next_id
        next_id := s.next_id + 1
        trace := s.trace ++ [effect.grabber_client_new s.next_id,
                             effect.grabber_client_async_start s.next_id] }
  | .stop_grabber_client, s => stop_grabber_client s
  | .connected, s => async_start_device_observer (manual_check s)
  | .connect_failed, s => async_stop_device_observer (manual_check s)
  | .closed, s => async_stop_device_observer (manual_check s)
  | .start_device_observer, s =>
    match s.device_observer_ with
    | some _ => s
    | none =>
      { s with
        device_observer_ := some { id := s.next_id, grabber_client := s.grabber_client_ }
        next_id := s.next_id + 1
        trace := s.trace ++
          [effect.device_observer_new { id := s.next_id, grabber_client := s.grabber_client_ }] }
  | .stop_device_observer, s => async_stop_device_observer s
  | .cleanup, s =>
    let s := stop_device_observer (stop_grabber_client s)
    { s with version_monitor_ := none, trace := s.trace ++ [effect.version_monitor_reset] }

/-- The constructor: attach the object id, make the version monitor, and call
`async_start_grabber_client`.  The factory in `version_monitor_utility` is outside the two
embedded files; as in the spec (section 4.3, step 1) it yields a version monitor. -/
def new : components_manager :=
  async_start_grabber_client
    { attached := true, terminated := false, queue := [], version_monitor_ := some 0,
      grabber_client_ := none, device_observer_ := none, next_id := 1,
      trace := [effect.version_monitor_new 0] }

/-- The handler lambda each signal of `grabber_client_` is connected to. -/
def handler : signal → task
  | .connected => task.connected
  | .connect_failed => task.connect_failed
  | .closed => task.closed

/-- A signal of `grabber_client_` fires (on the client's thread): the connected slot
enqueues the handler.  Slots exist only while `grabber_client_` does. -/
def fire (e : signal) (s : components_manager) : Option components_manager :=
  if s.grabber_client_.isSome then some (enqueue (handler e) s) else none

/-- Modelled from the spec: the dispatcher runs the oldest task of an attached object id;
the task passed to `detach` is the last one it runs for the id, which is retired
afterwards. -/
def step (s : components_manager) : Option components_manager :=
  if s.attached then
    match s.queue with
    | [] => none
    | t :: q =>
      let s1 := run_task t { s with queue := q }
      some (if t = task.cleanup then { s1 with attached := false } else s1)
  else none

/-- The destructor up to the point where `detach` starts waiting: the cleanup lambda is
enqueued.  Enabled once, on an attached id. -/
def detach_begin (s : components_manager) : Option components_manager :=
  if s.attached ∧ task.cleanup ∉ s.queue then some (enqueue task.cleanup s) else none

/-- The rest of the destructor, enabled when `detach` returns (the cleanup has run):
`dispatcher_->terminate()`. -/
def detach_end (s : components_manager) : Option components_manager :=
  if ¬ s.attached ∧ ¬ s.terminated then
    some { s with terminated := true, trace := s.trace ++ [effect.dispatcher_terminate] }
  else none

/-- What can happen to a `components_manager` between two task boundaries. -/
inductive action where
  | fire (e : signal)
  | run
  | detach_begin
  | detach_end
deriving DecidableEq, Repr

/-- One action; `none` when it is not enabled. -/
def apply : action → components_manager → Option components_manager
  | .fire e, s => fire e s
  | .run, s => step s
  | .detach_begin, s => detach_begin s
  | .detach_end, s => detach_end s

/-- A schedule of actions, left to right; `none` when some action is not enabled. -/
def exec : List action → components_manager → Option components_manager
  | [], s => some s
  | a :: as, s =>
    match apply a s with
    | none => none
    | some s1 => exec as s1

/-- The dispatcher runs `n` tasks (fewer when the queue runs dry or the id is retired). -/
def run_n : Nat → components_manager → components_manager
  | 0, s => s
  | n + 1, s =>
    match step s with
    | none => s
    | some s1 => run_n n s1

/-- The whole destructor when no signal arrives meanwhile: enqueue the cleanup, let the
dispatcher run everything up to and including it, terminate. -/
def destructor (s : components_manager) : Option components_manager :=
  match detach_begin s with
  | none => none
  | some s1 => detach_end (run_n s1.queue.length s1)

/-- Number of `device_observer` constructions recorded in a trace. -/
def constructions (tr : List effect) : Nat :=
  tr.countP (fun e => match e with
    | effect.device_observer_new _ => true
    | _ => false)

/-- Number of `async_manual_check` calls recorded in a trace. -/
def manual_checks (tr : List effect) : Nat :=
  tr.countP (fun e => match e with
    | effect.async_manual_check _ => true
    | _ => false)

/-- Whether a task is one of the three signal handlers. -/
def task.is_handler : task → Bool
  | .connected => true
  | .connect_failed => true
  | .closed => true
  | _ => false

/-- Whether an action is a signal. -/
def action.is_fire : action → Bool
  | .fire _ => true
  | _ => false

/-- The task a task body enqueues by calling `async_start_device_observer` or
`async_stop_device_observer`, if any. -/
def requested : task → List task
  | .connected => [task.start_device_observer]
  | .connect_failed => [task.stop_device_observer]
  | .closed => [task.stop_device_observer]
  | .stop_device_observer => [task.stop_device_observer]
  | _ => []

/-- What holds of a `components_manager` at every task boundary (shown below to be kept by
every action): nobody enqueues the grabber-client stop task; without a grabber client there
is no device observer and, while attached, nothing queued but the start task and the
cleanup; every device observer was built with a grabber client; the grabber client and the
device observer are reset only by the cleanup, which retires the id and leaves all three
pointers null; until then the version monitor is there. -/
def invariant (s : components_manager) : Prop :=
  task.stop_grabber_client ∉ s.queue ∧
    (s.grabber_client_ = none → s.device_observer_ = none) ∧
    (s.attached = true → s.grabber_client_ = none →
      ∀ t ∈ s.queue, t = task.start_grabber_client ∨ t = task.cleanup) ∧
    (∀ d, effect.device_observer_new d ∈ s.trace → d.grabber_client.isSome = true) ∧
    (∀ g, effect.grabber_client_reset g ∈ s.trace → s.attached = false) ∧
    (∀ d, effect.device_observer_reset d ∈ s.trace → s.attached = false) ∧
    (s.attached = false →
      s.grabber_client_ = none ∧ s.device_observer_ = none ∧ s.version_monitor_ = none) ∧
    (s.attached = true → s.version_monitor_.isSome = true)

/-- Relative to a count `base` of earlier constructions: the id is attached, no cleanup is
queued, and either there is no device observer and none was built since, or there is one
and exactly one was built since. -/
def built_at_most_once (base : Nat) (s : components_manager) : Prop :=
  s.attached = true ∧ task.cleanup ∉ s.queue ∧
    ((s.device_observer_ = none ∧ constructions s.trace = base) ∨
      (s.device_observer_.isSome = true ∧ constructions s.trace = base + 1))

/-- A device observer exists or its construction is on the way: a `connected` handler or a
start task is queued. -/
def start_pending (s : components_manager) : Prop :=
  s.device_observer_.isSome = true ∨ task.connected ∈ s.queue ∨
    task.start_device_observer ∈ s.queue

end components_manager

end krbn

/-! # Theorems -/

namespace krbn

/-! ## `strlcpy` -/

theorem take_succ_set (mem : List Nat) (off c : Nat) (h : off < mem.length) :
    (mem.set off c).take (off + 1) = mem.take off ++ [c] := by
  rw [List.set_eq_take_append_cons_drop, if_pos h]
  rw [List.take_append_eq_append_take]
  simp [List.length_take, Nat.min_eq_left (Nat.le_of_lt h)]

theorem strlcpy_loop_eq (s : List Nat) : ∀ (mem : List Nat) (off k : Nat),
    (∀ c ∈ s, c ≠ 0) → off + k < mem.length →
    strlcpy_loop mem off s k =
      mem.take off ++ s.take k ++ 0 :: mem.drop (off + min s.length k + 1) := by
  induction s with
  | nil =>
    intro mem off k _ hlen
    have h : off < mem.length := by omega
    cases k <;> simp [strlcpy_loop, List.set_eq_take_append_cons_drop, h]
  | cons c cs ih =>
    intro mem off k hs hlen
    have h : off < mem.length := by omega
    cases k with
    | zero => simp [strlcpy_loop, List.set_eq_take_append_cons_drop, h]
    | succ k =>
      have hc : c ≠ 0 := hs c (List.mem_cons_self _ _)
      have hcs : ∀ d ∈ cs, d ≠ 0 := fun d hd => hs d (List.mem_cons_of_mem _ hd)
      rw [strlcpy_loop, if_neg hc, ih _ _ _ hcs (by simp; omega), take_succ_set _ _ _ h,
        List.drop_set, if_pos (by omega)]
      simp only [List.take_succ_cons, List.length_cons, List.append_assoc, List.singleton_append,
        List.cons_append]
      have e : off + 1 + min cs.length k + 1 = off + min (cs.length + 1) (k + 1) + 1 := by
        rw [Nat.succ_min_succ]; omega
      rw [e]
      rfl


theorem strlcpy_loop_length (s : List Nat) : ∀ (mem : List Nat) (off k : Nat),
    (strlcpy_loop mem off s k).length = mem.length := by
  induction s with
  | nil => intro mem off k; cases k <;> simp [strlcpy_loop]
  | cons c cs ih =>
    intro mem off k
    cases k with
    | zero => simp [strlcpy_loop]
    | succ k =>
      rw [strlcpy_loop]
      split
      · simp
      · rw [ih]; simp

theorem strlcpy_length (mem : List Nat) (off : Nat) (s : List Nat) (n : Nat) :
    (strlcpy mem off s n).length = mem.length := by
  unfold strlcpy
  split
  · rfl
  · exact strlcpy_loop_length s mem off _

theorem strlcpy_loop_frame (s : List Nat) : ∀ (mem : List Nat) (off k i : Nat),
    (i < off ∨ off + k < i) → (strlcpy_loop mem off s k)[i]? = mem[i]? := by
  induction s with
  | nil =>
    intro mem off k i hi
    have : off ≠ i := by omega
    cases k <;> simp [strlcpy_loop, List.getElem?_set, this]
  | cons c cs ih =>
    intro mem off k i hi
    have hne : off ≠ i := by omega
    cases k with
    | zero => simp [strlcpy_loop, List.getElem?_set, hne]
    | succ k =>
      rw [strlcpy_loop]
      split
      · simp [List.getElem?_set, hne]
      · rw [ih _ _ _ _ (by omega)]
        simp [List.getElem?_set, hne]

theorem strlcpy_frame (mem : List Nat) (off : Nat) (s : List Nat) (n i : Nat)
    (hi : i < off ∨ off + n ≤ i) : (strlcpy mem off s n)[i]? = mem[i]? := by
  unfold strlcpy
  split
  · rfl
  · exact strlcpy_loop_frame s mem off _ i (by omega)

theorem field_getElem? (mem : List Nat) (off n i : Nat) :
    (field mem off n)[i]? = if i < n then mem[off + i]? else none := by
  simp [field, List.getElem?_take, List.getElem?_drop]

theorem strlcpy_field_frame (mem : List Nat) (off : Nat) (s : List Nat) (n off2 n2 : Nat)
    (h : off2 + n2 ≤ off ∨ off + n ≤ off2) :
    field (strlcpy mem off s n) off2 n2 = field mem off2 n2 := by
  apply List.ext_getElem?
  intro i
  rw [field_getElem?, field_getElem?]
  split
  · exact strlcpy_frame mem off s n _ (by omega)
  · rfl

theorem strlcpy_field (mem : List Nat) (off : Nat) (s : List Nat) (n : Nat)
    (hs : ∀ c ∈ s, c ≠ 0) (hn : 0 < n) (hlen : off + n ≤ mem.length) :
    field (strlcpy mem off s n) off n =
      s.take (n - 1) ++ 0 :: (field mem off n).drop (min s.length (n - 1) + 1) := by
  unfold strlcpy
  rw [if_neg (by omega), strlcpy_loop_eq s mem off (n - 1) hs (by omega)]
  unfold field
  rw [List.append_assoc, List.drop_left' (by simp; omega)]
  rw [List.take_append_eq_append_take, List.take_of_length_le (by simp)]
  congr 1
  rw [List.length_take, Nat.min_comm (n - 1) s.length]
  have h1 : n - min s.length (n - 1) = (n - (min s.length (n - 1) + 1)) + 1 := by omega
  rw [h1, List.take_succ_cons, List.drop_take, List.drop_drop]
  simp only [Nat.add_assoc]

theorem bounded_copy_of_field (mem : List Nat) (off n : Nat) (s rest : List Nat)
    (hs : ∀ c ∈ s, c ≠ 0) (hn : 0 < n)
    (h : field mem off n = s.take (n - 1) ++ 0 :: rest) : bounded_copy_of mem off n s := by
  have hk : s.take (min s.length (n - 1)) = s.take (n - 1) := by
    rw [Nat.min_comm, ← List.take_take, List.take_length]
  constructor
  · rw [h, hk, List.take_append_eq_append_take, List.take_of_length_le (by simp; omega)]
    congr 1
    simp [List.length_take, Nat.min_comm]
  · unfold c_string
    rw [h, List.takeWhile_append_of_pos, List.takeWhile_cons]
    · simp only [ne_eq, not_true_eq_false, decide_False, Bool.false_eq_true, if_false,
        List.append_nil]
      split
      · rw [List.take_of_length_le (by omega)]
      · rfl
    · intro a ha
      simpa using hs a (List.mem_of_mem_take ha)

namespace grabber_client

/-! ## Queue mechanics of the private dispatcher -/

theorem run_task_queue_comm (T : types) (t : task) (s : grabber_client) (q : List task) :
    run_task T t { s with queue := q } = { run_task T t s with queue := q } := by
  rcases s with ⟨cm, qu, n, tr, lg⟩
  rcases cm with _ | ⟨i, st, _ | c⟩ <;> cases t <;> rfl

theorem iterate_step_eq_foldl (T : types) (l : List task) (s : grabber_client) :
    (step T)^[l.length] { s with queue := l } =
      l.foldl (fun acc t => run_task T t acc) { s with queue := [] } := by
  induction l generalizing s with
  | nil => rfl
  | cons t q ih =>
    have hs : step T { s with queue := t :: q } = run_task T t { s with queue := q } := rfl
    have h1 : run_task T t { s with queue := q } = { run_task T t s with queue := q } :=
      run_task_queue_comm T t s q
    have h2 : run_task T t { s with queue := [] } = { run_task T t s with queue := [] } :=
      run_task_queue_comm T t s []
    rw [List.length_cons, Function.iterate_succ_apply, hs, h1, List.foldl_cons, h2]
    exact ih (run_task T t s)

/-- Draining the dispatcher runs the queued task bodies in order. -/
theorem run_all_eq_foldl (T : types) (s : grabber_client) :
    run_all T s = s.queue.foldl (fun acc t => run_task T t acc) { s with queue := [] } :=
  iterate_step_eq_foldl T s.queue s

theorem run_task_queue (T : types) (t : task) (s : grabber_client) :
    (run_task T t s).queue = s.queue := by
  rcases s with ⟨cm, qu, n, tr, lg⟩
  rcases cm with _ | ⟨i, st, _ | c⟩ <;> cases t <;> rfl

theorem foldl_run_task_queue (T : types) (l : List task) (s : grabber_client) :
    (l.foldl (fun acc t => run_task T t acc) s).queue = s.queue := by
  induction l generalizing s with
  | nil => rfl
  | cons t q ih => rw [List.foldl_cons, ih, run_task_queue]

theorem iterate_async_start (N : Nat) (s : grabber_client) :
    async_start^[N] s = { s with queue := s.queue ++ List.replicate N task.async_start } := by
  induction N with
  | zero => simp
  | succ n ih =>
    rw [Function.iterate_succ_apply', ih]
    simp [async_start, enqueue, List.replicate_succ', List.append_assoc]

/-! ## Starting -/

/-- A started manager without a live client is untouched by anything but `async_stop`. -/
theorem started_run_task (T : types) (t : task) (ht : t ≠ task.async_stop) (r : grabber_client)
    (m : client_manager) (hm : r.client_manager_ = some m) (hc : m.client = none) :
    (run_task T t r).client_manager_ = some m ∧ (run_task T t r).trace = r.trace ∧
      (run_task T t r).next_id = r.next_id := by
  rcases r with ⟨cm, qu, n, tr, lg⟩
  simp only at hm
  subst hm
  rcases m with ⟨i, st, c⟩
  simp only at hc
  subst hc
  cases t <;> first | exact absurd rfl ht | exact ⟨rfl, rfl, rfl⟩

theorem start_from_stopped (T : types) (r : grabber_client) (hr : r.client_manager_ = none) :
    (run_task T task.async_start r).client_manager_ =
        some { id := r.next_id, started := true, client := none } ∧
      (run_task T task.async_start r).trace =
        r.trace ++ [transport_call.client_manager_new r.next_id,
                    transport_call.client_manager_async_start r.next_id] := by
  rcases r with ⟨cm, qu, n, tr, lg⟩
  simp only at hr
  subst hr
  exact ⟨rfl, rfl⟩

theorem started_foldl (T : types) (l : List task) (hl : ∀ t ∈ l, t ≠ task.async_stop)
    (r : grabber_client) (m : client_manager) (hm : r.client_manager_ = some m)
    (hc : m.client = none) :
    (l.foldl (fun acc t => run_task T t acc) r).client_manager_ = some m ∧
      (l.foldl (fun acc t => run_task T t acc) r).trace = r.trace ∧
      (l.foldl (fun acc t => run_task T t acc) r).next_id = r.next_id := by
  induction l generalizing r with
  | nil => exact ⟨hm, rfl, rfl⟩
  | cons t q ih =>
    obtain ⟨h1, h2, h3⟩ := started_run_task T t (hl t (List.mem_cons_self _ _)) r m hm hc
    obtain ⟨k1, k2, k3⟩ := ih (fun u hu => hl u (List.mem_cons_of_mem _ hu)) _ h1
    exact ⟨k1, k2.trans h2, k3.trans h3⟩

/-- From Stopped, tasks other than `async_stop` either leave the client Stopped with nothing
done, or have built and started exactly one manager. -/
theorem stopped_foldl (T : types) (l : List task) (hl : ∀ t ∈ l, t ≠ task.async_stop)
    (r : grabber_client) (hr : r.client_manager_ = none) :
    ((l.foldl (fun acc t => run_task T t acc) r).client_manager_ = none ∧
        (l.foldl (fun acc t => run_task T t acc) r).trace = r.trace ∧
        (l.foldl (fun acc t => run_task T t acc) r).next_id = r.next_id) ∨
      ((l.foldl (fun acc t => run_task T t acc) r).client_manager_ =
          some { id := r.next_id, started := true, client := none } ∧
        (l.foldl (fun acc t => run_task T t acc) r).trace =
          r.trace ++ [transport_call.client_manager_new r.next_id,
                      transport_call.client_manager_async_start r.next_id]) := by
  induction l generalizing r with
  | nil => exact Or.inl ⟨hr, rfl, rfl⟩
  | cons t q ih =>
    have hq : ∀ u ∈ q, u ≠ task.async_stop := fun u hu => hl u (List.mem_cons_of_mem _ hu)
    have ht : t ≠ task.async_stop := hl t (List.mem_cons_self _ _)
    rw [List.foldl_cons]
    by_cases hstart : t = task.async_start
    · subst hstart
      have h1 : (run_task T task.async_start r).client_manager_ =
          some { id := r.next_id, started := true, client := none } := by
        simp [run_task, hr]
      have h2 : (run_task T task.async_start r).trace =
          r.trace ++ [transport_call.client_manager_new r.next_id,
                      transport_call.client_manager_async_start r.next_id] := by
        simp [run_task, hr]
      obtain ⟨k1, k2, _⟩ := started_foldl T q hq _ _ h1 rfl
      exact Or.inr ⟨k1, k2.trans h2⟩
    · have h0 : run_task T t r = r := by
        rcases r with ⟨cm, qu, n, tr, lg⟩
        simp only at hr
        subst hr
        cases t <;> first | exact absurd rfl ht | exact absurd rfl hstart | rfl
      rw [h0]
      exact ih hq r hr

/-- C5: `async_start` is idempotent.  From the Stopped state (no `async_stop` pending), `N ≥ 1`
calls of `async_start` followed by the dispatcher draining its queue build and start exactly
one client manager (the trace grows by exactly one construction and one start), and the body
of `async_start` run on a started client changes nothing but the log (the warning). -/
theorem async_start_idempotent (T : types) (N : Nat) (hN : 1 ≤ N) (s : grabber_client)
    (hs : s.client_manager_ = none) (hq : ∀ t ∈ s.queue, t ≠ task.async_stop) :
    (run_all T (async_start^[N] s)).client_manager_ =
        some { id := s.next_id, started := true, client := none } ∧
      (run_all T (async_start^[N] s)).trace =
        s.trace ++ [transport_call.client_manager_new s.next_id,
                    transport_call.client_manager_async_start s.next_id] ∧
      (run_all T (async_start^[N] s)).queue = [] ∧
      ∀ (r : grabber_client) (m : client_manager),
        run_task T task.async_start { r with client_manager_ := some m } =
          { r with client_manager_ := some m, log := r.log ++ [log_line.warn_already_started] } := by
  obtain ⟨n, rfl⟩ : ∃ n, N = n + 1 := ⟨N - 1, by omega⟩
  have hrun : run_all T (async_start^[n + 1] s) =
      (List.replicate n task.async_start).foldl (fun acc t => run_task T t acc)
        (run_task T task.async_start
          (s.queue.foldl (fun acc t => run_task T t acc) { s with queue := [] })) := by
    rw [run_all_eq_foldl, iterate_async_start]
    simp only [List.replicate_succ, List.foldl_append, List.foldl_cons]
  have hrep : ∀ t ∈ List.replicate n task.async_start, t ≠ task.async_stop := by
    intro t ht
    rw [List.eq_of_mem_replicate ht]
    decide
  have hfirst :
      (run_task T task.async_start
          (s.queue.foldl (fun acc t => run_task T t acc) { s with queue := [] })).client_manager_ =
          some { id := s.next_id, started := true, client := none } ∧
        (run_task T task.async_start
          (s.queue.foldl (fun acc t => run_task T t acc) { s with queue := [] })).trace =
          s.trace ++ [transport_call.client_manager_new s.next_id,
                      transport_call.client_manager_async_start s.next_id] := by
    rcases stopped_foldl T s.queue hq { s with queue := [] } hs with ⟨h1, h2, h3⟩ | ⟨h1, h2⟩
    · obtain ⟨k1, k2⟩ := start_from_stopped T _ h1
      rw [h3] at k1 k2
      rw [h2] at k2
      exact ⟨k1, k2⟩
    · obtain ⟨k1, k2, _⟩ := started_run_task T task.async_start (by decide) _ _ h1 rfl
      exact ⟨k1, k2.trans h2⟩
  obtain ⟨k1, k2, _⟩ := started_foldl T _ hrep _ _ hfirst.1 rfl
  refine ⟨?_, ?_, ?_, fun r m => rfl⟩
  · rw [hrun]; exact k1
  · rw [hrun]; exact k2.trans hfirst.2
  · rw [hrun, foldl_run_task_queue, run_task_queue, foldl_run_task_queue]

/-- Witness for C5: three `async_start` calls on a freshly constructed client. -/
theorem async_start_idempotent_witness :
    (run_all types.small (async_start^[3] new)).client_manager_ =
        some { id := 0, started := true, client := none } ∧
      (run_all types.small (async_start^[3] new)).trace =
        [transport_call.client_manager_new 0, transport_call.client_manager_async_start 0] :=
  have h := async_start_idempotent types.small 3 (by decide) new rfl (by simp [new])
  ⟨h.1, h.2.1⟩

/-! ## Sending while not connected -/

/-- C6: a message-sending task processed while there is no client manager, or while the
manager has no live client, changes nothing: nothing is handed to the transport (the trace
is unchanged), nothing is logged or signalled, and the dispatcher queue only loses the task
itself (nothing is queued for a retry). -/
theorem send_dropped_when_not_connected (T : types) (t : task) (ht : t.is_send = true)
    (s : grabber_client)
    (h : s.client_manager_ = none ∨ ∃ m, s.client_manager_ = some m ∧ m.client = none) :
    run_task T t s = s ∧ step T { s with queue := t :: s.queue } = s := by
  have hbody : ∀ r : grabber_client,
      (r.client_manager_ = none ∨ ∃ m, r.client_manager_ = some m ∧ m.client = none) →
      run_task T t r = r := by
    intro r hr
    have hsend : ∀ d, call_async_send d r = r := by
      intro d
      rcases hr with h0 | ⟨m, h1, h2⟩
      · simp [call_async_send, h0]
      · simp [call_async_send, h1, h2]
    cases t with
    | async_start => simp [task.is_send] at ht
    | async_stop => simp [task.is_send] at ht
    | async_grabbable_state_changed g => exact hsend _
    | async_connect_console_user_server pid => exact hsend _
    | async_system_preferences_updated q => exact hsend _
    | async_frontmost_application_changed b f => exact hsend _
    | async_input_source_changed l i m => exact hsend _
  refine ⟨hbody s h, ?_⟩
  show run_task T t { s with queue := s.queue } = s
  exact hbody s h

/-- Witness for C6: a frontmost-application message on a started but unconnected client. -/
theorem send_dropped_when_not_connected_witness :
    run_task types.small (task.async_frontmost_application_changed [65, 66] [67])
        (run_task types.small task.async_start new) =
      run_task types.small task.async_start new :=
  (send_dropped_when_not_connected types.small
    (task.async_frontmost_application_changed [65, 66] [67]) rfl
    (run_task types.small task.async_start new)
    (Or.inr ⟨{ id := 0, started := true, client := none }, rfl, rfl⟩)).1

/-! ## Stopping -/

/-- C8: `async_stop` always ends Stopped and is idempotent.  After the stop task no client
manager exists; running it again gives exactly the same state; on a Stopped client it changes
nothing; and whatever is queued before it, once `async_stop` was called and the dispatcher
has drained (as the destructor does), the client is Stopped. -/
theorem async_stop_idempotent (T : types) (s : grabber_client) :
    (run_task T task.async_stop s).client_manager_ = none ∧
      run_task T task.async_stop (run_task T task.async_stop s) = run_task T task.async_stop s ∧
      run_task T task.async_stop { s with client_manager_ := none } =
        { s with client_manager_ := none } ∧
      (run_all T (async_stop s)).client_manager_ = none := by
  have h1 : ∀ r : grabber_client, (run_task T task.async_stop r).client_manager_ = none := by
    intro r
    rcases r with ⟨cm, qu, n, tr, lg⟩
    cases cm <;> rfl
  refine ⟨h1 s, ?_, rfl, ?_⟩
  · rcases s with ⟨cm, qu, n, tr, lg⟩
    cases cm <;> rfl
  · rw [run_all_eq_foldl]
    simp only [async_stop, enqueue, List.foldl_append, List.foldl_cons, List.foldl_nil]
    exact h1 _

/-! ## String fields -/

theorem strlcpy_optional_length (mem : List Nat) (off : Nat) (v : Option (List Nat)) (n : Nat) :
    (strlcpy_optional mem off v n).length = mem.length := by
  cases v with
  | none => rfl
  | some src => exact strlcpy_length mem off src n

theorem strlcpy_optional_frame (mem : List Nat) (off : Nat) (v : Option (List Nat)) (n i : Nat)
    (hi : i < off ∨ off + n ≤ i) : (strlcpy_optional mem off v n)[i]? = mem[i]? := by
  cases v with
  | none => rfl
  | some src => exact strlcpy_frame mem off src n i hi

theorem strlcpy_optional_field_frame (mem : List Nat) (off : Nat) (v : Option (List Nat))
    (n off2 n2 : Nat) (h : off2 + n2 ≤ off ∨ off + n ≤ off2) :
    field (strlcpy_optional mem off v n) off2 n2 = field mem off2 n2 := by
  cases v with
  | none => rfl
  | some src => exact strlcpy_field_frame mem off src n off2 n2 h

theorem strlcpy_bounded_copy (mem : List Nat) (off : Nat) (s : List Nat) (n : Nat)
    (hs : ∀ c ∈ s, c ≠ 0) (hn : 0 < n) (hlen : off + n ≤ mem.length) :
    bounded_copy_of (strlcpy mem off s n) off n s :=
  bounded_copy_of_field _ off n s _ hs hn (strlcpy_field mem off s n hs hn hlen)

theorem bounded_copy_of_congr (m1 m2 : List Nat) (off n : Nat) (s : List Nat)
    (h : field m1 off n = field m2 off n) (h2 : bounded_copy_of m2 off n s) :
    bounded_copy_of m1 off n s := by
  unfold bounded_copy_of c_string at *
  rw [h]
  exact h2

/-- C7: the string fields are bounded, truncating, NUL-terminated copies.  With every array
of capacity `n > 0` and the structs laid out as tag byte plus arrays:

* every `strlcpy` call keeps the length of the memory and every byte outside its `n`-byte
  field, whatever the string, and for a string without NUL it leaves in the field the first
  `min |s| (n-1)` bytes of `s` and a NUL, which read back as `s` when `|s| < n` and as its
  `(n-1)`-byte start otherwise;
* on a connected client the task of `async_frontmost_application_changed` hands exactly one
  datagram to the transport, the struct it built: its length and tag byte are those of the
  default-constructed struct, and each of the two fields whose string has no NUL is such a
  copy of that string, whatever the other string is;
* on a connected client the task of `async_input_source_changed` hands exactly one datagram
  to the transport, the struct it built: its length and tag byte are those of the
  default-constructed struct, every field whose optional value is present and has no NUL is
  such a copy of that value, and every field whose optional value is absent holds the bytes
  it held in the default-constructed struct.

The functions are total: no input makes them fail. -/
theorem string_fields_bounded_copy (T : types) (hT : T.well_formed)
    (s : grabber_client) (m : client_manager) (c : Nat)
    (hm : s.client_manager_ = some m) (hc : m.client = some c)
    (b f : List Nat) (l i k : Option (List Nat)) :
    (∀ (mem : List Nat) (off n : Nat) (src : List Nat),
        (strlcpy mem off src n).length = mem.length ∧
          (∀ j, j < off ∨ off + n ≤ j → (strlcpy mem off src n)[j]? = mem[j]?) ∧
          (0 < n → off + n ≤ mem.length → (∀ x ∈ src, x ≠ 0) →
            bounded_copy_of (strlcpy mem off src n) off n src)) ∧
      (run_task T (task.async_frontmost_application_changed b f) s =
          { s with trace := s.trace ++ [transport_call.client_async_send c
              (datagram.frontmost_application_changed
                (frontmost_application_changed_memory T b f))] } ∧
        (frontmost_application_changed_memory T b f).length =
          T.frontmost_application_changed_struct.length ∧
        (frontmost_application_changed_memory T b f)[0]? =
          T.frontmost_application_changed_struct[0]? ∧
        ((∀ x ∈ b, x ≠ 0) →
          bounded_copy_of (frontmost_application_changed_memory T b f) 1
            T.sizeof_bundle_identifier b) ∧
        ((∀ x ∈ f, x ≠ 0) →
          bounded_copy_of (frontmost_application_changed_memory T b f)
            (1 + T.sizeof_bundle_identifier) T.sizeof_file_path f)) ∧
      (run_task T (task.async_input_source_changed l i k) s =
          { s with trace := s.trace ++ [transport_call.client_async_send c
              (datagram.input_source_changed (input_source_changed_memory T l i k))] } ∧
        (input_source_changed_memory T l i k).length = T.input_source_changed_struct.length ∧
        (input_source_changed_memory T l i k)[0]? = T.input_source_changed_struct[0]? ∧
        (∀ v, l = some v → (∀ x ∈ v, x ≠ 0) →
          bounded_copy_of (input_source_changed_memory T l i k) 1 T.sizeof_language v) ∧
        (∀ v, i = some v → (∀ x ∈ v, x ≠ 0) →
          bounded_copy_of (input_source_changed_memory T l i k) (1 + T.sizeof_language)
            T.sizeof_input_source_id v) ∧
        (∀ v, k = some v → (∀ x ∈ v, x ≠ 0) →
          bounded_copy_of (input_source_changed_memory T l i k)
            (1 + T.sizeof_language + T.sizeof_input_source_id) T.sizeof_input_mode_id v) ∧
        (l = none →
          field (input_source_changed_memory T l i k) 1 T.sizeof_language =
            field T.input_source_changed_struct 1 T.sizeof_language) ∧
        (i = none →
          field (input_source_changed_memory T l i k) (1 + T.sizeof_language)
              T.sizeof_input_source_id =
            field T.input_source_changed_struct (1 + T.sizeof_language)
              T.sizeof_input_source_id) ∧
        (k = none →
          field (input_source_changed_memory T l i k)
              (1 + T.sizeof_language + T.sizeof_input_source_id) T.sizeof_input_mode_id =
            field T.input_source_changed_struct
              (1 + T.sizeof_language + T.sizeof_input_source_id) T.sizeof_input_mode_id)) := by
  obtain ⟨p1, p2, p3, p4, p5, hF, hI⟩ := hT
  have hsend : ∀ d, call_async_send d s =
      { s with trace := s.trace ++ [transport_call.client_async_send c d] } := by
    intro d
    simp [call_async_send, hm, hc]
  refine ⟨?_, ⟨?_, ?_, ?_, ?_, ?_⟩, ⟨?_, ?_, ?_, ?_, ?_, ?_, ?_, ?_, ?_⟩⟩
  · intro mem off n src
    exact ⟨strlcpy_length mem off src n, fun j hj => strlcpy_frame mem off src n j hj,
      fun hn hlen hs => strlcpy_bounded_copy mem off src n hs hn hlen⟩
  · exact hsend _
  · simp only [frontmost_application_changed_memory, strlcpy_length]
  · simp only [frontmost_application_changed_memory]
    rw [strlcpy_frame _ _ _ _ _ (by omega), strlcpy_frame _ _ _ _ _ (by omega)]
  · intro hb
    apply bounded_copy_of_congr _ _ _ _ _ (strlcpy_field_frame _ _ _ _ _ _ (by omega))
    exact strlcpy_bounded_copy _ _ _ _ hb p1 (by omega)
  · intro hf
    exact strlcpy_bounded_copy _ _ _ _ hf p2 (by rw [strlcpy_length]; omega)
  · exact hsend _
  · simp only [input_source_changed_memory, strlcpy_optional_length]
  · simp only [input_source_changed_memory]
    rw [strlcpy_optional_frame _ _ _ _ _ (by omega), strlcpy_optional_frame _ _ _ _ _ (by omega),
      strlcpy_optional_frame _ _ _ _ _ (by omega)]
  · intro v hv hnul
    subst hv
    apply bounded_copy_of_congr _ _ _ _ _
      ((strlcpy_optional_field_frame _ _ _ _ _ _ (by omega)).trans
        (strlcpy_optional_field_frame _ _ _ _ _ _ (by omega)))
    exact strlcpy_bounded_copy _ _ _ _ hnul p3 (by omega)
  · intro v hv hnul
    subst hv
    apply bounded_copy_of_congr _ _ _ _ _ (strlcpy_optional_field_frame _ _ _ _ _ _ (by omega))
    exact strlcpy_bounded_copy _ _ _ _ hnul p4 (by rw [strlcpy_optional_length]; omega)
  · intro v hv hnul
    subst hv
    exact strlcpy_bounded_copy _ _ _ _ hnul p5
      (by rw [strlcpy_optional_length, strlcpy_optional_length]; omega)
  · intro hl
    subst hl
    simp only [input_source_changed_memory]
    rw [strlcpy_optional_field_frame _ _ _ _ _ _ (by omega),
      strlcpy_optional_field_frame _ _ _ _ _ _ (by omega)]
    rfl
  · intro hi
    subst hi
    simp only [input_source_changed_memory]
    rw [strlcpy_optional_field_frame _ _ _ _ _ _ (by omega)]
    show field (strlcpy_optional T.input_source_changed_struct 1 l T.sizeof_language)
      (1 + T.sizeof_language) T.sizeof_input_source_id = _
    rw [strlcpy_optional_field_frame _ _ _ _ _ _ (by omega)]
  · intro hk
    subst hk
    simp only [input_source_changed_memory]
    show field (strlcpy_optional (strlcpy_optional T.input_source_changed_struct 1 l
        T.sizeof_language) (1 + T.sizeof_language) i T.sizeof_input_source_id)
      (1 + T.sizeof_language + T.sizeof_input_source_id) T.sizeof_input_mode_id = _
    rw [strlcpy_optional_field_frame _ _ _ _ _ _ (by omega),
      strlcpy_optional_field_frame _ _ _ _ _ _ (by omega)]

/-- Witness for C7: on a connected client, a five-byte bundle identifier is truncated into
a four-byte array and sent; a file path with an embedded NUL beside it does not disturb the
bundle identifier; an absent input source id leaves its array as it was. -/
theorem string_fields_bounded_copy_witness :
    run_task types.small (task.async_frontmost_application_changed [65, 66, 67, 68, 69] [70])
        { client_manager_ := some { id := 0, started := true, client := some 5 },
          queue := [], next_id := 1, trace := [], log := [] } =
        { client_manager_ := some { id := 0, started := true, client := some 5 },
          queue := [], next_id := 1,
          trace := [transport_call.client_async_send 5
            (datagram.frontmost_application_changed [1, 65, 66, 67, 0, 70, 0, 7, 7])],
          log := [] } ∧
      bounded_copy_of
        (frontmost_application_changed_memory types.small [65, 66, 67, 68, 69] [70, 0, 71])
        1 4 [65, 66, 67, 68, 69] ∧
      bounded_copy_of (input_source_changed_memory types.small (some [101, 110]) none none)
        1 4 [101, 110] ∧
      field (input_source_changed_memory types.small (some [101, 110]) none none) 5 4 =
        [7, 7, 7, 7] :=
  have hw : types.small.well_formed := by unfold types.well_formed; decide
  have h1 := string_fields_bounded_copy types.small hw
    { client_manager_ := some { id := 0, started := true, client := some 5 },
      queue := [], next_id := 1, trace := [], log := [] }
    { id := 0, started := true, client := some 5 } 5 rfl rfl
    [65, 66, 67, 68, 69] [70] (some [101, 110]) none none
  have h2 := string_fields_bounded_copy types.small hw
    { client_manager_ := some { id := 0, started := true, client := some 5 },
      queue := [], next_id := 1, trace := [], log := [] }
    { id := 0, started := true, client := some 5 } 5 rfl rfl
    [65, 66, 67, 68, 69] [70, 0, 71] (some [101, 110]) none none
  ⟨h1.2.1.1.trans (by decide), h2.2.1.2.2.2.1 (by decide), h1.2.2.2.2.2.1 _ rfl (by decide),
    (h1.2.2.2.2.2.2.2.2.2.1 rfl).trans (by decide)⟩

end grabber_client

namespace components_manager

/-! ## Dispatcher steps of `components_manager` -/

theorem step_cons (s : components_manager) (t : task) (q : List task)
    (ha : s.attached = true) (hq : s.queue = t :: q) :
    step s = some (if t = task.cleanup then
        { run_task t { s with queue := q } with attached := false }
      else run_task t { s with queue := q }) := by
  simp [step, ha, hq]

theorem run_task_attached (t : task) (s : components_manager) :
    (run_task t s).attached = s.attached ∧ (run_task t s).terminated = s.terminated := by
  rcases s with ⟨att, term, qu, vm, gc, dobs, nid, tr⟩
  cases t <;> cases att <;> cases vm <;> cases gc <;> cases dobs <;> exact ⟨rfl, rfl⟩

theorem run_task_appends (t : task) (s : components_manager) :
    (run_task t s).queue = s.queue ++ (if s.attached = true then requested t else []) := by
  rcases s with ⟨att, term, qu, vm, gc, dobs, nid, tr⟩
  cases t <;> cases att <;> cases vm <;> cases gc <;> cases dobs <;>
    simp [run_task, requested, enqueue, manual_check, async_start_device_observer,
      async_stop_device_observer, stop_grabber_client, stop_device_observer]

theorem run_n_add (m n : Nat) (s : components_manager) :
    run_n (m + n) s = run_n n (run_n m s) := by
  induction m generalizing s with
  | zero =>
    rw [Nat.zero_add]
    rfl
  | succ m ih =>
    rw [Nat.succ_add]
    cases h : step s with
    | none =>
      have h1 : ∀ j, run_n j s = s := by
        intro j
        cases j with
        | zero => rfl
        | succ j => simp [run_n, h]
      rw [h1, h1, h1]
    | some s1 =>
      simp only [run_n, h]
      exact ih s1

theorem step_terminated (s s1 : components_manager) (h : step s = some s1) :
    s1.terminated = s.terminated := by
  unfold step at h
  split at h
  · split at h
    · exact absurd h (by simp)
    · rename_i t q hq
      simp only [Option.some.injEq] at h
      subst h
      split
      · exact (run_task_attached t _).2
      · exact (run_task_attached t _).2
  · exact absurd h (by simp)

theorem run_n_terminated (n : Nat) (s : components_manager) :
    (run_n n s).terminated = s.terminated := by
  induction n generalizing s with
  | zero => rfl
  | succ n ih =>
    cases h : step s with
    | none => simp [run_n, h]
    | some s1 =>
      simp only [run_n, h]
      rw [ih, step_terminated s s1 h]

/-- A task that is not the cleanup leaves the id attached and only appends to the queue. -/
theorem step_of_ne_cleanup (s : components_manager) (t : task) (q : List task)
    (ha : s.attached = true) (hq : s.queue = t :: q) (ht : t ≠ task.cleanup) :
    ∃ s1, step s = some s1 ∧ s1 = run_task t { s with queue := q } ∧ s1.attached = true ∧
      s1.queue = q ++ requested t := by
  refine ⟨run_task t { s with queue := q }, ?_, rfl, ?_, ?_⟩
  · rw [step_cons s t q ha hq, if_neg ht]
  · rw [(run_task_attached t _).1]
    exact ha
  · rw [run_task_appends]
    simp [ha]

/-- The dispatcher reaches a queued cleanup after running what is queued before it. -/
theorem run_n_reaches_cleanup (pre : List task) :
    ∀ (s : components_manager) (post : List task), s.attached = true →
      s.queue = pre ++ task.cleanup :: post → task.cleanup ∉ pre →
      (run_n pre.length s).attached = true ∧
        ∃ post1, (run_n pre.length s).queue = task.cleanup :: post1 := by
  induction pre with
  | nil =>
    intro s post ha hq _
    exact ⟨ha, post, hq⟩
  | cons t pre ih =>
    intro s post ha hq hpre
    have ht : t ≠ task.cleanup := fun h => hpre (h ▸ List.mem_cons_self _ _)
    obtain ⟨s1, h1, _, h3, h4⟩ := step_of_ne_cleanup s t (pre ++ task.cleanup :: post) ha hq ht
    have hrun : run_n (t :: pre).length s = run_n pre.length s1 := by
      simp [run_n, h1]
    rw [hrun]
    exact ih s1 (post ++ requested t) h3 (by rw [h4]; simp)
      (fun h => hpre (List.mem_cons_of_mem _ h))

/-! ## Destruction -/

theorem run_task_cleanup (s : components_manager) :
    run_task task.cleanup s =
      { s with
        grabber_client_ := none
        device_observer_ := none
        version_monitor_ := none
        trace := s.trace ++
          (match s.grabber_client_ with
            | some g => [effect.grabber_client_reset g]
            | none => []) ++
          (match s.device_observer_ with
            | some d => [effect.device_observer_reset d]
            | none => []) ++
          [effect.version_monitor_reset] } := by
  rcases s with ⟨att, term, qu, vm, gc, dobs, nid, tr⟩
  cases gc <;> cases dobs <;>
    simp [run_task, stop_grabber_client, stop_device_observer]

/-- C3: the cleanup task resets `grabber_client_`, then `device_observer_` (each only when
present), then `version_monitor_`, in that order in the trace, and from every state leaves
all three absent.  The destructor of a live manager (attached, not yet destructed,
dispatcher running) always completes: the dispatcher reaches the cleanup after the tasks
queued before it, runs it, the id is retired, and `dispatcher_terminate` is the last effect,
after those of the cleanup. -/
theorem destructor_cleanup_order (s : components_manager) (ha : s.attached = true)
    (hc : task.cleanup ∉ s.queue) (ht : s.terminated = false) :
    (∀ r : components_manager,
        run_task task.cleanup r =
          { r with
            grabber_client_ := none
            device_observer_ := none
            version_monitor_ := none
            trace := r.trace ++
              (match r.grabber_client_ with
                | some g => [effect.grabber_client_reset g]
                | none => []) ++
              (match r.device_observer_ with
                | some d => [effect.device_observer_reset d]
                | none => []) ++
              [effect.version_monitor_reset] }) ∧
      (run_n s.queue.length (enqueue task.cleanup s)).queue.head? = some task.cleanup ∧
      (run_n s.queue.length (enqueue task.cleanup s)).attached = true ∧
      destructor s =
        some { run_task task.cleanup
                { run_n s.queue.length (enqueue task.cleanup s) with
                  queue := (run_n s.queue.length (enqueue task.cleanup s)).queue.tail } with
              attached := false
              terminated := true
              trace := (run_task task.cleanup
                { run_n s.queue.length (enqueue task.cleanup s) with
                  queue := (run_n s.queue.length (enqueue task.cleanup s)).queue.tail }).trace ++
                [effect.dispatcher_terminate] } := by
  have henq : (enqueue task.cleanup s).queue = s.queue ++ [task.cleanup] := by
    simp [enqueue, ha]
  have henqa : (enqueue task.cleanup s).attached = true := by
    simp [enqueue, ha]
  obtain ⟨h1, post1, h2⟩ :=
    run_n_reaches_cleanup s.queue (enqueue task.cleanup s) [] henqa henq hc
  refine ⟨run_task_cleanup, by rw [h2]; rfl, h1, ?_⟩
  have hdb : detach_begin s = some (enqueue task.cleanup s) := by
    simp [detach_begin, ha, hc]
  have hlen : (enqueue task.cleanup s).queue.length = s.queue.length + 1 := by
    rw [henq]; simp
  have hterm : (run_n s.queue.length (enqueue task.cleanup s)).terminated = false := by
    rw [run_n_terminated]
    simp [enqueue, ha, ht]
  unfold destructor
  rw [hdb]
  simp only [hlen]
  rw [run_n_add]
  generalize run_n s.queue.length (enqueue task.cleanup s) = s0 at h1 h2 hterm ⊢
  have hstep := step_cons s0 task.cleanup post1 h1 h2
  simp only [if_true] at hstep
  simp only [run_n, hstep, h2, List.tail_cons]
  simp [detach_end, (run_task_attached task.cleanup _).2, hterm]

/-- Witness for C3: destruction while a device observer exists and a stop task is pending. -/
theorem destructor_cleanup_order_witness :
    (destructor (run_n 1 (enqueue task.closed
        (run_n 2 (enqueue task.connected (run_n 1 new)))))).map
        (fun s => (s.grabber_client_, s.device_observer_, s.version_monitor_, s.attached,
          s.terminated, s.trace.drop 13)) =
        some (none, none, none, false, true,
          [effect.grabber_client_reset 1,
           effect.device_observer_reset { id := 2, grabber_client := some 1 },
           effect.version_monitor_reset, effect.dispatcher_terminate]) ∧
      (run_n 1 (enqueue task.cleanup (run_n 1 (enqueue task.closed
        (run_n 2 (enqueue task.connected (run_n 1 new))))))).queue.head? = some task.cleanup :=
  ⟨rfl,
    (destructor_cleanup_order
      (run_n 1 (enqueue task.closed (run_n 2 (enqueue task.connected (run_n 1 new)))))
      (by decide) (by decide) (by decide)).2.1⟩

/-! ## The invariant -/

theorem invariant_new : invariant new := by
  simp [invariant, new, async_start_grabber_client, enqueue]

theorem invariant_enqueue (s : components_manager) (t : task) (h : invariant s)
    (ht : t ≠ task.stop_grabber_client)
    (hg : s.grabber_client_ = none → t = task.start_grabber_client ∨ t = task.cleanup) :
    invariant (enqueue t s) := by
  rcases s with ⟨att, term, qu, vm, gc, dobs, nid, tr⟩
  cases att
  · simpa [enqueue] using h
  · obtain ⟨h1, h2, h3, h4, h5, h6, h7, h8⟩ := h
    simp only [enqueue, if_true]
    refine ⟨?_, h2, ?_, ?_, ?_, ?_, h7, h8⟩
    · simp only [List.mem_append, List.mem_singleton, not_or]
      exact ⟨h1, fun h => ht h.symm⟩
    · intro _ hgc u hu
      simp only [List.mem_append, List.mem_singleton] at hu
      rcases hu with hu | hu
      · exact h3 rfl hgc u hu
      · subst hu; exact hg hgc
    · intro d hd
      simp only [List.mem_append, List.mem_singleton] at hd
      rcases hd with hd | hd
      · exact h4 d hd
      · cases hd
    · intro g hg2
      simp only [List.mem_append, List.mem_singleton] at hg2
      rcases hg2 with hg2 | hg2
      · exact h5 g hg2
      · cases hg2
    · intro d hd
      simp only [List.mem_append, List.mem_singleton] at hd
      rcases hd with hd | hd
      · exact h6 d hd
      · cases hd

theorem invariant_step (s s1 : components_manager) (h : invariant s)
    (hs : step s = some s1) : invariant s1 := by
  rcases s with ⟨att, term, qu, vm, gc, dobs, nid, tr⟩
  cases att
  · simp [step] at hs
  · cases qu with
    | nil => simp [step] at hs
    | cons t q =>
      simp only [step, if_true, Option.some.injEq] at hs
      subst hs
      cases t <;> cases vm <;> cases gc <;> cases dobs <;>
        simp_all [invariant, run_task, enqueue, manual_check, async_start_device_observer,
          async_stop_device_observer, stop_grabber_client, stop_device_observer]
      rintro d (hd | rfl)
      · exact h.2.1 d hd
      · rfl

theorem invariant_apply (a : action) (s s1 : components_manager) (h : invariant s)
    (hs : apply a s = some s1) : invariant s1 := by
  cases a with
  | fire e =>
    simp only [apply, fire] at hs
    split at hs
    · rename_i hg
      simp only [Option.some.injEq] at hs
      subst hs
      apply invariant_enqueue s _ h
      · cases e <;> simp [handler]
      · intro hn
        rw [hn] at hg
        exact absurd hg (by simp)
    · exact absurd hs (by simp)
  | run => exact invariant_step s s1 h hs
  | detach_begin =>
    simp only [apply, detach_begin] at hs
    split at hs
    · simp only [Option.some.injEq] at hs
      subst hs
      exact invariant_enqueue s _ h (by decide) (fun _ => Or.inr rfl)
    · exact absurd hs (by simp)
  | detach_end =>
    simp only [apply, detach_end] at hs
    split at hs
    · rename_i hc
      simp only [Option.some.injEq] at hs
      subst hs
      rcases s with ⟨att, term, qu, vm, gc, dobs, nid, tr⟩
      cases att
      · simpa [invariant] using h
      · simp at hc
    · exact absurd hs (by simp)

theorem invariant_exec (acts : List action) :
    ∀ (s s1 : components_manager), invariant s → exec acts s = some s1 → invariant s1 := by
  induction acts with
  | nil =>
    intro s s1 h hs
    simp only [exec, Option.some.injEq] at hs
    exact hs ▸ h
  | cons a acts ih =>
    intro s s1 h hs
    simp only [exec] at hs
    cases ha : apply a s with
    | none => simp [ha] at hs
    | some s2 =>
      simp only [ha] at hs
      exact ih s2 s1 (invariant_apply a s s2 h ha) hs

theorem attached_of_apply (a : action) (s s1 : components_manager)
    (hs : apply a s = some s1) (h1 : s1.attached = true) : s.attached = true := by
  rcases s with ⟨att, term, qu, vm, gc, dobs, nid, tr⟩
  cases att
  · cases a <;> simp [apply, fire, step, detach_begin, detach_end, enqueue] at hs
    · rename_i e
      rw [← hs.2] at h1
      exact h1
    · rw [← hs.2] at h1
      exact h1
  · rfl

theorem attached_of_exec (acts : List action) :
    ∀ (s s1 : components_manager), exec acts s = some s1 → s1.attached = true →
      s.attached = true := by
  induction acts with
  | nil =>
    intro s s1 hs h1
    simp only [exec, Option.some.injEq] at hs
    exact hs ▸ h1
  | cons a acts ih =>
    intro s s1 hs h1
    simp only [exec] at hs
    cases ha : apply a s with
    | none => simp [ha] at hs
    | some s2 =>
      simp only [ha] at hs
      exact attached_of_apply a s s2 ha (ih s2 s1 hs h1)

/-! ## The self-enqueueing stop task -/

theorem stop_pending_apply (a : action) (s s1 : components_manager)
    (hp : task.stop_device_observer ∈ s.queue) (hs : apply a s = some s1)
    (h1 : s1.attached = true) : task.stop_device_observer ∈ s1.queue := by
  have ha : s.attached = true := attached_of_apply a s s1 hs h1
  cases a with
  | fire e =>
    simp only [apply, fire] at hs
    split at hs
    · simp only [Option.some.injEq] at hs
      subst hs
      simp [enqueue, ha, hp]
    · exact absurd hs (by simp)
  | run =>
    simp only [apply] at hs
    cases hq : s.queue with
    | nil => rw [hq] at hp; cases hp
    | cons t q =>
      by_cases ht : t = task.cleanup
      · rw [step_cons s t q ha hq, if_pos ht] at hs
        simp only [Option.some.injEq] at hs
        subst hs
        simp at h1
      · obtain ⟨s2, h2, _, _, h5⟩ := step_of_ne_cleanup s t q ha hq ht
        rw [h2] at hs
        simp only [Option.some.injEq] at hs
        subst hs
        rw [h5]
        rw [hq] at hp
        rcases List.mem_cons.1 hp with hp | hp
        · subst hp
          simp [requested]
        · exact List.mem_append_left _ hp
  | detach_begin =>
    simp only [apply, detach_begin] at hs
    split at hs
    · simp only [Option.some.injEq] at hs
      subst hs
      simp [enqueue, ha, hp]
    · exact absurd hs (by simp)
  | detach_end =>
    simp only [apply, detach_end] at hs
    split at hs
    · simp only [Option.some.injEq] at hs
      subst hs
      exact hp
    · exact absurd hs (by simp)

theorem stop_pending_exec (acts : List action) :
    ∀ (s s1 : components_manager), task.stop_device_observer ∈ s.queue →
      exec acts s = some s1 → s1.attached = true → task.stop_device_observer ∈ s1.queue := by
  induction acts with
  | nil =>
    intro s s1 hp hs _
    simp only [exec, Option.some.injEq] at hs
    exact hs ▸ hp
  | cons a acts ih =>
    intro s s1 hp hs h1
    simp only [exec] at hs
    cases ha : apply a s with
    | none => simp [ha] at hs
    | some s2 =>
      simp only [ha] at hs
      exact ih s2 s1
        (stop_pending_apply a s s2 hp ha (attached_of_exec acts s2 s1 hs h1)) hs h1

/-- C9: the stop path enqueues itself.  Running the task enqueued by
`async_stop_device_observer` changes no pointer and puts one more copy of the same task at
the back of the queue; so in every state reached after the handler of a `closed` or
`connect_failed` signal has run, and in which the cleanup has not yet run (the id is still
attached), a stop task is pending and no `device_observer_` reset has ever happened. -/
theorem stop_device_observer_task_enqueues_itself
    (acts1 : List action) (s1 : components_manager) (e : signal) (acts2 : List action)
    (s2 : components_manager) (he : e ≠ signal.connected)
    (h1 : exec acts1 new = some s1) (hh : s1.queue.head? = some (handler e))
    (h2 : exec (action.run :: acts2) s1 = some s2) (ha : s2.attached = true) :
    (∀ (r : components_manager) (q : List task), r.attached = true →
        r.queue = task.stop_device_observer :: q →
        step r = some { r with
          queue := q ++ [task.stop_device_observer]
          trace := r.trace ++ [effect.enqueued task.stop_device_observer] }) ∧
      task.stop_device_observer ∈ s2.queue ∧
      ∀ d, effect.device_observer_reset d ∉ s2.trace := by
  refine ⟨?_, ?_, ?_⟩
  · intro r q hr hq
    rw [step_cons r _ q hr hq]
    rcases r with ⟨att, term, qu, vm, gc, dobs, nid, tr⟩
    simp only at hr
    subst hr
    simp [run_task, async_stop_device_observer, enqueue]
  · simp only [exec, apply] at h2
    cases hs : step s1 with
    | none => simp [hs] at h2
    | some s3 =>
      simp only [hs] at h2
      have ha3 : s3.attached = true := attached_of_exec acts2 s3 s2 h2 ha
      have ha1 : s1.attached = true := attached_of_apply action.run s1 s3 hs ha3
      cases hq : s1.queue with
      | nil => simp [hq] at hh
      | cons t q =>
        simp only [hq, List.head?_cons, Option.some.injEq] at hh
        subst hh
        have ht : handler e ≠ task.cleanup := by cases e <;> simp [handler]
        obtain ⟨s4, h4, _, _, h5⟩ := step_of_ne_cleanup s1 _ q ha1 hq ht
        rw [h4] at hs
        simp only [Option.some.injEq] at hs
        subst hs
        apply stop_pending_exec acts2 s4 s2 _ h2 ha
        rw [h5]
        cases e <;> simp [handler, requested] at he ⊢
  · intro d hd
    have hinv := invariant_exec _ _ _ (invariant_exec acts1 _ _ invariant_new h1) h2
    have := hinv.2.2.2.2.2.1 d hd
    rw [ha] at this
    cases this

/-- Witness for C9: a `closed` signal on a started manager, its handler and two more steps. -/
theorem stop_device_observer_task_enqueues_itself_witness :
    task.stop_device_observer ∈ (run_n 3 (enqueue task.closed (run_n 1 new))).queue ∧
      step (run_n 3 (enqueue task.closed (run_n 1 new))) =
        some { run_n 3 (enqueue task.closed (run_n 1 new)) with
          queue := [] ++ [task.stop_device_observer]
          trace := (run_n 3 (enqueue task.closed (run_n 1 new))).trace ++
            [effect.enqueued task.stop_device_observer] } :=
  have h := stop_device_observer_task_enqueues_itself [action.run, action.fire signal.closed]
    (enqueue task.closed (run_n 1 new)) signal.closed [action.run, action.run]
    (run_n 3 (enqueue task.closed (run_n 1 new)))
    (by decide) (by decide) (by decide) (by decide) (by decide)
  ⟨h.2.1, h.1 _ [] (by decide) (by decide)⟩

/-- C10: at every task boundary reachable from construction, under any schedule of signals,
dispatcher steps and destruction: a present device observer implies a present grabber
client; every device observer ever constructed was handed a non-null grabber client; while
the id is attached, a pending `connected` handler or start task implies that the grabber
client exists; and the grabber client has been reset only if the cleanup has run, in which
case the device observer is gone as well. -/
theorem device_observer_implies_grabber_client (acts : List action) (s : components_manager)
    (h : exec acts new = some s) :
    (s.device_observer_.isSome = true → s.grabber_client_.isSome = true) ∧
      (∀ d, effect.device_observer_new d ∈ s.trace → d.grabber_client.isSome = true) ∧
      (s.attached = true →
        (task.connected ∈ s.queue ∨ task.start_device_observer ∈ s.queue) →
        s.grabber_client_.isSome = true) ∧
      (∀ g, effect.grabber_client_reset g ∈ s.trace →
        s.attached = false ∧ s.device_observer_ = none) := by
  obtain ⟨_, h2, h3, h4, h5, _, h7, _⟩ := invariant_exec acts new s invariant_new h
  refine ⟨?_, h4, ?_, ?_⟩
  · intro hd
    cases hg : s.grabber_client_ with
    | none => rw [h2 hg] at hd; cases hd
    | some g => rfl
  · intro ha hq
    cases hg : s.grabber_client_ with
    | none =>
      rcases hq with hq | hq
      · rcases h3 ha hg _ hq with h | h <;> cases h
      · rcases h3 ha hg _ hq with h | h <;> cases h
    | some g => rfl
  · intro g hg
    exact ⟨h5 g hg, (h7 (h5 g hg)).2.1⟩

/-- Witness for C10: the state in which the first device observer has just been built. -/
theorem device_observer_implies_grabber_client_witness :
    (run_n 2 (enqueue task.connected (run_n 1 new))).device_observer_ =
        some { id := 2, grabber_client := some 1 } ∧
      (run_n 2 (enqueue task.connected (run_n 1 new))).grabber_client_.isSome = true :=
  ⟨by decide,
    (device_observer_implies_grabber_client
      [action.run, action.fire signal.connected, action.run, action.run]
      (run_n 2 (enqueue task.connected (run_n 1 new))) (by decide)).1 (by decide)⟩

/-! ## Manual checks -/

theorem count_apply (a : action) (s s1 : components_manager) (hv : s.version_monitor_.isSome)
    (hs : apply a s = some s1) (h1 : s1.attached = true) :
    manual_checks s1.trace + s1.queue.countP task.is_handler =
      manual_checks s.trace + s.queue.countP task.is_handler +
        (if a.is_fire = true then 1 else 0) := by
  have ha : s.attached = true := attached_of_apply a s s1 hs h1
  rcases s with ⟨att, term, qu, vm, gc, dobs, nid, tr⟩
  simp only at ha
  subst ha
  cases vm with
  | none => simp at hv
  | some v =>
    cases a with
    | fire e =>
      cases gc with
      | none => simp [apply, fire] at hs
      | some g =>
        simp only [apply, fire, Option.isSome_some, if_true, Option.some.injEq] at hs
        subst hs
        cases e <;>
          simp [enqueue, handler, manual_checks, List.countP_append, task.is_handler,
            action.is_fire] <;> omega
    | run =>
      cases qu with
      | nil => simp [apply, step] at hs
      | cons t q =>
        simp only [apply, step, if_true, Option.some.injEq] at hs
        subst hs
        cases t <;> cases gc <;> cases dobs <;>
          simp_all [run_task, enqueue, manual_check, async_start_device_observer,
            async_stop_device_observer, stop_grabber_client, stop_device_observer,
            manual_checks, List.countP_append, List.countP_cons, task.is_handler,
            action.is_fire] <;> omega
    | detach_begin =>
      simp only [apply, detach_begin] at hs
      split at hs
      · simp only [Option.some.injEq] at hs
        subst hs
        simp [enqueue, manual_checks, List.countP_append, task.is_handler, action.is_fire]
      · exact absurd hs (by simp)
    | detach_end =>
      simp [apply, detach_end] at hs

theorem count_exec (acts : List action) :
    ∀ (s s1 : components_manager), invariant s → exec acts s = some s1 →
      s1.attached = true →
      manual_checks s1.trace + s1.queue.countP task.is_handler =
        manual_checks s.trace + s.queue.countP task.is_handler +
          acts.countP action.is_fire := by
  induction acts with
  | nil =>
    intro s s1 _ hs _
    simp only [exec, Option.some.injEq] at hs
    subst hs
    simp
  | cons a acts ih =>
    intro s s1 hinv hs h1
    simp only [exec] at hs
    cases ha : apply a s with
    | none => simp [ha] at hs
    | some s2 =>
      simp only [ha] at hs
      have h2 : s2.attached = true := attached_of_exec acts s2 s1 hs h1
      have h0 : s.attached = true := attached_of_apply a s s2 ha h2
      rw [ih s2 s1 (invariant_apply a s s2 hinv ha) hs h1,
        count_apply a s s2 (hinv.2.2.2.2.2.2.2 h0) ha h2, List.countP_cons]
      omega

/-- C4: one manual check per handled signal, before the request.  In every state reached
from construction in which the cleanup has not yet run, the number of `async_manual_check`
calls made so far plus the number of signal handlers still waiting in the queue equals the
number of signals delivered (so each handler that ran made exactly one call); and whenever a
handler is at the head of the queue, the version monitor is present and running the handler
appends to the trace exactly the manual check followed by the enqueueing of the start task
(for `connected`) or the stop task (for `connect_failed` and `closed`). -/
theorem manual_check_once_per_signal (acts : List action) (s : components_manager)
    (h : exec acts new = some s) (ha : s.attached = true) :
    manual_checks s.trace + s.queue.countP task.is_handler = acts.countP action.is_fire ∧
      ∀ (e : signal) (q : List task), s.queue = handler e :: q →
        ∃ v, s.version_monitor_ = some v ∧
          step s = some { s with
            queue := q ++ requested (handler e)
            trace := s.trace ++
              effect.async_manual_check v :: (requested (handler e)).map effect.enqueued } := by
  constructor
  · rw [count_exec acts new s invariant_new h ha]
    simp [new, async_start_grabber_client, enqueue, manual_checks, task.is_handler]
  · intro e q hq
    have hinv := invariant_exec acts new s invariant_new h
    have hv := hinv.2.2.2.2.2.2.2 ha
    cases hvm : s.version_monitor_ with
    | none => rw [hvm] at hv; cases hv
    | some v =>
      refine ⟨v, rfl, ?_⟩
      have ht : handler e ≠ task.cleanup := by cases e <;> simp [handler]
      rw [step_cons s _ q ha hq, if_neg ht]
      rcases s with ⟨att, term, qu, vm, gc, dobs, nid, tr⟩
      simp only at ha hvm
      subst ha
      subst hvm
      cases e <;>
        simp [handler, run_task, manual_check, async_start_device_observer,
          async_stop_device_observer, enqueue, requested]

/-- Witness for C4: two signals delivered, one of them handled. -/
theorem manual_check_once_per_signal_witness :
    manual_checks (run_n 1 (enqueue task.closed
        (enqueue task.connected (run_n 1 new)))).trace +
      (run_n 1 (enqueue task.closed (enqueue task.connected (run_n 1 new)))).queue.countP
        task.is_handler =
      [action.run, action.fire signal.connected, action.fire signal.closed,
        action.run].countP action.is_fire ∧
    ∃ v, (run_n 1 (enqueue task.closed
          (enqueue task.connected (run_n 1 new)))).version_monitor_ = some v ∧
      step (run_n 1 (enqueue task.closed (enqueue task.connected (run_n 1 new)))) =
        some { run_n 1 (enqueue task.closed (enqueue task.connected (run_n 1 new))) with
          queue := [task.start_device_observer] ++ requested (handler signal.closed)
          trace := (run_n 1 (enqueue task.closed
              (enqueue task.connected (run_n 1 new)))).trace ++
            effect.async_manual_check v ::
              (requested (handler signal.closed)).map effect.enqueued } :=
  have h := manual_check_once_per_signal
    [action.run, action.fire signal.connected, action.fire signal.closed, action.run]
    (run_n 1 (enqueue task.closed (enqueue task.connected (run_n 1 new))))
    (by decide) (by decide)
  ⟨h.1, h.2 signal.closed [task.start_device_observer] (by decide)⟩

/-! ## Starting the device observer -/

theorem requested_length (t : task) : (requested t).length ≤ 1 := by
  cases t <;> simp [requested]

theorem cleanup_not_mem_requested (t : task) : task.cleanup ∉ requested t := by
  cases t <;> simp [requested]

theorem once_step (base : Nat) (s s1 : components_manager) (h : built_at_most_once base s)
    (hs : step s = some s1) : built_at_most_once base s1 := by
  rcases s with ⟨att, term, qu, vm, gc, dobs, nid, tr⟩
  obtain ⟨ha, hc, hr⟩ := h
  simp only at ha
  subst ha
  cases qu with
  | nil => simp [step] at hs
  | cons t q =>
    simp only [step, if_true, Option.some.injEq] at hs
    subst hs
    cases t <;> cases vm <;> cases gc <;> cases dobs <;>
      simp_all [built_at_most_once, run_task, enqueue, manual_check,
        async_start_device_observer, async_stop_device_observer, stop_grabber_client,
        stop_device_observer, constructions, List.countP_append, List.countP_cons]

theorem once_fire (base : Nat) (e : signal) (s s1 : components_manager)
    (h : built_at_most_once base s) (hs : fire e s = some s1) : built_at_most_once base s1 := by
  rcases s with ⟨att, term, qu, vm, gc, dobs, nid, tr⟩
  obtain ⟨ha, hc, hr⟩ := h
  simp only at ha
  subst ha
  cases gc with
  | none => simp [fire] at hs
  | some g =>
    simp only [fire, Option.isSome_some, if_true, Option.some.injEq] at hs
    subst hs
    cases e <;>
      simp_all [built_at_most_once, enqueue, handler, constructions, List.countP_append]

theorem once_run_n (base : Nat) (n : Nat) :
    ∀ s : components_manager, built_at_most_once base s → built_at_most_once base (run_n n s) := by
  induction n with
  | zero => intro s h; exact h
  | succ n ih =>
    intro s h
    cases hs : step s with
    | none => simpa [run_n, hs] using h
    | some s1 =>
      simp only [run_n, hs]
      exact ih s1 (once_step base s s1 h hs)

theorem pending_step (base : Nat) (s s1 : components_manager) (h : built_at_most_once base s)
    (hp : start_pending s) (hs : step s = some s1) : start_pending s1 := by
  rcases s with ⟨att, term, qu, vm, gc, dobs, nid, tr⟩
  obtain ⟨ha, hc, hr⟩ := h
  simp only at ha
  subst ha
  cases qu with
  | nil => simp [step] at hs
  | cons t q =>
    simp only [step, if_true, Option.some.injEq] at hs
    subst hs
    cases t <;> cases vm <;> cases gc <;> cases dobs <;>
      simp_all [start_pending, run_task, enqueue, manual_check,
        async_start_device_observer, async_stop_device_observer, stop_grabber_client,
        stop_device_observer]

theorem pending_fire (e : signal) (s s1 : components_manager) (ha : s.attached = true)
    (hp : start_pending s ∨ e = signal.connected) (hs : fire e s = some s1) :
    start_pending s1 := by
  rcases s with ⟨att, term, qu, vm, gc, dobs, nid, tr⟩
  simp only at ha
  subst ha
  cases gc with
  | none => simp [fire] at hs
  | some g =>
    simp only [fire, Option.isSome_some, if_true, Option.some.injEq] at hs
    subst hs
    rcases hp with hp | rfl
    · rcases hp with hp | hp | hp
      · exact Or.inl hp
      · exact Or.inr (Or.inl (by simp [enqueue]; exact Or.inl hp))
      · exact Or.inr (Or.inr (by simp [enqueue]; exact Or.inl hp))
    · exact Or.inr (Or.inl (by simp [enqueue, handler]))

theorem some_step (base : Nat) (s s1 : components_manager) (h : built_at_most_once base s)
    (hd : s.device_observer_.isSome = true) (hs : step s = some s1) :
    s1.device_observer_.isSome = true := by
  rcases s with ⟨att, term, qu, vm, gc, dobs, nid, tr⟩
  obtain ⟨ha, hc, hr⟩ := h
  simp only at ha
  subst ha
  cases qu with
  | nil => simp [step] at hs
  | cons t q =>
    simp only [step, if_true, Option.some.injEq] at hs
    subst hs
    cases t <;> cases vm <;> cases gc <;> cases dobs <;>
      simp_all [run_task, enqueue, manual_check,
        async_start_device_observer, async_stop_device_observer, stop_grabber_client,
        stop_device_observer]

theorem some_run_n (base : Nat) (n : Nat) :
    ∀ s : components_manager, built_at_most_once base s → s.device_observer_.isSome = true →
      (run_n n s).device_observer_.isSome = true := by
  induction n with
  | zero => intro s _ hd; exact hd
  | succ n ih =>
    intro s h hd
    cases hs : step s with
    | none => simpa [run_n, hs] using hd
    | some s1 =>
      simp only [run_n, hs]
      exact ih s1 (once_step base s s1 h hs) (some_step base s s1 h hd hs)

theorem some_of_start_queued (base : Nat) (pre : List task) :
    ∀ (s : components_manager) (post : List task), built_at_most_once base s →
      s.queue = pre ++ task.start_device_observer :: post →
      (run_n (pre.length + 1) s).device_observer_.isSome = true := by
  induction pre with
  | nil =>
    intro s post h hq
    rcases s with ⟨att, term, qu, vm, gc, dobs, nid, tr⟩
    obtain ⟨ha, hc, hr⟩ := h
    simp only at ha hq
    subst ha
    subst hq
    cases dobs <;> simp [run_n, step, run_task]
  | cons t pre ih =>
    intro s post h hq
    have ht : t ≠ task.cleanup := by
      intro ht
      apply h.2.1
      rw [hq, ht]
      exact List.mem_cons_self _ _
    obtain ⟨s1, h1, _, _, h4⟩ := step_of_ne_cleanup s t _ h.1 hq ht
    have hrun : run_n ((t :: pre).length + 1) s = run_n (pre.length + 1) s1 := by
      simp [run_n, h1]
    rw [hrun]
    exact ih s1 (post ++ requested t) (once_step base s s1 h h1) (by rw [h4]; simp)

theorem some_of_connected_queued (base : Nat) (pre : List task) :
    ∀ (s : components_manager) (post : List task), built_at_most_once base s →
      s.queue = pre ++ task.connected :: post →
      ∃ N, N ≤ 2 * pre.length + post.length + 2 ∧
        (run_n N s).device_observer_.isSome = true := by
  induction pre with
  | nil =>
    intro s post h hq
    obtain ⟨s1, h1, _, _, h4⟩ := step_of_ne_cleanup s task.connected post h.1 hq (by decide)
    refine ⟨post.length + 1 + 1, by simp, ?_⟩
    have hrun : run_n (post.length + 1 + 1) s = run_n (post.length + 1) s1 := by
      simp [run_n, h1]
    rw [hrun]
    exact some_of_start_queued base post s1 [] (once_step base s s1 h h1)
      (by rw [h4]; rfl)
  | cons t pre ih =>
    intro s post h hq
    have ht : t ≠ task.cleanup := by
      intro ht
      apply h.2.1
      rw [hq, ht]
      exact List.mem_cons_self _ _
    obtain ⟨s1, h1, _, _, h4⟩ := step_of_ne_cleanup s t _ h.1 hq ht
    obtain ⟨N, hN, hd⟩ := ih s1 (post ++ requested t) (once_step base s s1 h h1)
      (by rw [h4]; simp)
    refine ⟨N + 1, ?_, ?_⟩
    · have := requested_length t
      simp only [List.length_append, List.length_cons] at hN ⊢
      omega
    · have hrun : run_n (N + 1) s = run_n N s1 := by
        simp [run_n, h1]
      rw [hrun]
      exact hd

/-- Once a start is pending, running twice the queue length is enough to have the device
observer. -/
theorem some_of_start_pending (base : Nat) (s : components_manager)
    (h : built_at_most_once base s) (hp : start_pending s) (n : Nat)
    (hn : 2 * s.queue.length ≤ n) : (run_n n s).device_observer_.isSome = true := by
  have key : ∃ N, N ≤ 2 * s.queue.length ∧ (run_n N s).device_observer_.isSome = true := by
    rcases hp with hp | hp | hp
    · exact ⟨0, Nat.zero_le _, hp⟩
    · obtain ⟨pre, post, hq⟩ := List.append_of_mem hp
      obtain ⟨N, hN, hd⟩ := some_of_connected_queued base pre s post h hq
      refine ⟨N, ?_, hd⟩
      rw [hq]
      simp only [List.length_append, List.length_cons]
      omega
    · obtain ⟨pre, post, hq⟩ := List.append_of_mem hp
      refine ⟨pre.length + 1, ?_, some_of_start_queued base pre s post h hq⟩
      rw [hq]
      simp only [List.length_append, List.length_cons]
      omega
  obtain ⟨N, hN, hd⟩ := key
  obtain ⟨m, rfl⟩ : ∃ m, n = N + m := ⟨n - N, by omega⟩
  rw [run_n_add]
  exact some_run_n base m _ (once_run_n base N s h) hd

theorem once_exec (base : Nat) (acts : List action) :
    ∀ (s s1 : components_manager),
      (∀ a ∈ acts, a = action.fire signal.connected ∨ a = action.run) →
      built_at_most_once base s → exec acts s = some s1 →
      built_at_most_once base s1 ∧
        ((start_pending s ∨ action.fire signal.connected ∈ acts) → start_pending s1) := by
  induction acts with
  | nil =>
    intro s s1 _ h hs
    simp only [exec, Option.some.injEq] at hs
    subst hs
    refine ⟨h, ?_⟩
    rintro (hp | hp)
    · exact hp
    · cases hp
  | cons a acts ih =>
    intro s s1 hacts h hs
    simp only [exec] at hs
    cases ha : apply a s with
    | none => simp [ha] at hs
    | some s2 =>
      simp only [ha] at hs
      have hrest : ∀ b ∈ acts, b = action.fire signal.connected ∨ b = action.run :=
        fun b hb => hacts b (List.mem_cons_of_mem _ hb)
      rcases hacts a (List.mem_cons_self _ _) with rfl | rfl
      · have h2 := once_fire base _ s s2 h ha
        obtain ⟨k1, k2⟩ := ih s2 s1 hrest h2 hs
        exact ⟨k1, fun _ => k2 (Or.inl (pending_fire _ s s2 h.1 (Or.inr rfl) ha))⟩
      · have h2 := once_step base s s2 h ha
        obtain ⟨k1, k2⟩ := ih s2 s1 hrest h2 hs
        refine ⟨k1, ?_⟩
        rintro (hp | hp)
        · exact k2 (Or.inl (pending_step base s s2 h hp ha))
        · rcases List.mem_cons.1 hp with hp | hp
          · cases hp
          · exact k2 (Or.inr hp)

/-- C2: repeated `connected` signals build one device observer.  From an attached state with
no device observer and no cleanup queued, let any schedule made of `connected` signals (at
least one) and dispatcher steps happen, then let the dispatcher run `n` more tasks with `n`
at least twice the queue length.  Exactly one device observer has been built since the
start, it is present, and at no point of the schedule had more than one been built.  The
start task builds the observer when there is none and is the identity when there is one. -/
theorem connected_repeated_constructs_once (s : components_manager)
    (ha : s.attached = true) (hc : task.cleanup ∉ s.queue) (hd : s.device_observer_ = none)
    (acts : List action)
    (hacts : ∀ a ∈ acts, a = action.fire signal.connected ∨ a = action.run)
    (hk : action.fire signal.connected ∈ acts)
    (s1 : components_manager) (h1 : exec acts s = some s1)
    (n : Nat) (hn : 2 * s1.queue.length ≤ n) :
    constructions (run_n n s1).trace = constructions s.trace + 1 ∧
      (run_n n s1).device_observer_.isSome = true ∧
      constructions s1.trace ≤ constructions s.trace + 1 ∧
      (∀ (r : components_manager) (d : device_observer),
        run_task task.start_device_observer { r with device_observer_ := some d } =
          { r with device_observer_ := some d }) ∧
      (∀ r : components_manager,
        run_task task.start_device_observer { r with device_observer_ := none } =
          { r with
            device_observer_ := some { id := r.next_id, grabber_client := r.grabber_client_ }
            next_id := r.next_id + 1
            trace := r.trace ++ [effect.device_observer_new
              { id := r.next_id, grabber_client := r.grabber_client_ }] }) := by
  have h0 : built_at_most_once (constructions s.trace) s := ⟨ha, hc, Or.inl ⟨hd, rfl⟩⟩
  obtain ⟨k1, k2⟩ := once_exec _ acts s s1 hacts h0 h1
  have hsome := some_of_start_pending _ s1 k1 (k2 (Or.inr hk)) n hn
  have hfin := once_run_n _ n s1 k1
  refine ⟨?_, hsome, ?_, fun r d => rfl, fun r => rfl⟩
  · rcases hfin.2.2 with ⟨hnone, _⟩ | ⟨_, hcount⟩
    · rw [hnone] at hsome
      cases hsome
    · exact hcount
  · rcases k1.2.2 with ⟨_, hcount⟩ | ⟨_, hcount⟩ <;> omega

/-- Witness for C2: two `connected` signals delivered to a freshly started manager. -/
theorem connected_repeated_constructs_once_witness :
    constructions
        (run_n 4 (run_n 2 (enqueue task.connected (enqueue task.connected (run_n 1 new))))).trace =
        constructions new.trace + 1 ∧
      (run_n 4 (run_n 2 (enqueue task.connected
        (enqueue task.connected (run_n 1 new))))).device_observer_ =
        some { id := 2, grabber_client := some 1 } :=
  ⟨(connected_repeated_constructs_once new (by decide) (by decide) (by decide)
      [action.run, action.fire signal.connected, action.fire signal.connected, action.run,
        action.run]
      (by decide) (by decide)
      (run_n 2 (enqueue task.connected (enqueue task.connected (run_n 1 new))))
      (by decide) 4 (by decide)).1,
    by decide⟩

/-- C1 (evaluation of the code at the failing input): after the first task has built the
client, a `connected` signal has been handled and its start task has built the device
observer, a `closed` signal is handled and the stop task it enqueues is run, and then run
again ten more times; the device observer built at the start is still there, and the only
pending task is again the stop task.  A `connected` signal after that builds nothing new
(one construction in total), and however many tasks the dispatcher runs after the `closed`
handler, the device observer stays. -/
theorem closed_leaves_device_observer :
    (exec ([action.run, action.fire signal.connected, action.run, action.run,
            action.fire signal.closed, action.run] ++ List.replicate 11 action.run) new).map
        (fun s => (s.device_observer_, s.queue)) =
        some (some { id := 2, grabber_client := some 1 }, [task.stop_device_observer]) ∧
      (exec [action.run, action.fire signal.connected, action.run, action.run,
             action.fire signal.closed, action.run, action.run,
             action.fire signal.connected, action.run, action.run, action.run, action.run]
          new).map (fun s => (s.device_observer_, constructions s.trace)) =
        some (some { id := 2, grabber_client := some 1 }, 1) ∧
      ∀ n : Nat,
        (run_n n (run_n 1 (enqueue task.closed
          (run_n 2 (enqueue task.connected (run_n 1 new)))))).device_observer_.isSome = true := by
  refine ⟨by decide, by decide, fun n => ?_⟩
  exact some_run_n 0 n _ ⟨by decide, by decide, Or.inr ⟨by decide, by decide⟩⟩ (by decide)

end components_manager

end krbn
